import Mathlib

/-!
Verification of the resumable chunked-upload subsystem of ContentStageEngine.

The definitions below are a shallow embedding of the two source files that
implement the subsystem:

* `server/uploadService.ts` (class `UploadService`): inbound resumable
  uploads.  The three JavaScript `Map`s (`activeUploads`, `uploadProgress`)
  and the per-session chunk directory on disk are modelled as association
  lists inside a `ServiceState` record; each HTTP handler becomes a pure
  state-passing function returning the new state and the response.
* `server/ctaService.ts` (class `ChunkedUploadHelpers`): outbound
  chunked-transfer adapters (YouTube resumable PUT, X INIT/APPEND/FINALIZE,
  TikTok multipart).  Remote HTTP calls are abstracted by passing the
  response status observed for the single `fetch` the source performs; the
  embedding additionally returns the number of remote calls made so that
  retry behaviour is visible.

JavaScript numbers are modelled as exact rationals extended with the
special values `Infinity`, `-Infinity` and `NaN` (`JsNum`), which is enough
to reproduce the ETA arithmetic of `uploadService.ts` lines 181-185
including its division-by-zero behaviour.
-/

/-- A byte payload (one byte per list element). -/
abbrev Bytes := List Nat

/-! ### Association lists

JavaScript `Map` objects keyed by strings (the session tables) and the
on-disk chunk directory keyed by chunk number are modelled as association
lists.  `alistSet` mirrors `Map.set` (update in place, insertion order
preserved, new keys appended), `alistRemove` mirrors `Map.delete` /
`fs.unlink`, `alistGet` mirrors `Map.get`. -/

def alistGet {α β : Type} [DecidableEq α] : List (α × β) → α → Option β
  | [], _ => none
  | (k, v) :: rest, k' => if k = k' then some v else alistGet rest k'

def alistSet {α β : Type} [DecidableEq α] : List (α × β) → α → β → List (α × β)
  | [], k, v => [(k, v)]
  | (k0, v0) :: rest, k, v =>
      if k0 = k then (k, v) :: rest else (k0, v0) :: alistSet rest k v

def alistRemove {α β : Type} [DecidableEq α] : List (α × β) → α → List (α × β)
  | [], _ => []
  | (k0, v0) :: rest, k =>
      if k0 = k then alistRemove rest k else (k0, v0) :: alistRemove rest k

theorem alistGet_set_eq {α β : Type} [DecidableEq α]
    (l : List (α × β)) (k : α) (v : β) : alistGet (alistSet l k v) k = some v := by
  induction l with
  | nil => simp [alistSet, alistGet]
  | cons hd tl ih =>
      obtain ⟨k0, v0⟩ := hd
      by_cases h : k0 = k
      · simp [alistSet, h, alistGet]
      · simp [alistSet, h, alistGet, ih]

theorem alistGet_set_ne {α β : Type} [DecidableEq α]
    (l : List (α × β)) (k k' : α) (v : β) (h : k ≠ k') :
    alistGet (alistSet l k v) k' = alistGet l k' := by
  induction l with
  | nil => simp [alistSet, alistGet, h]
  | cons hd tl ih =>
      obtain ⟨k0, v0⟩ := hd
      by_cases h0 : k0 = k
      · subst h0
        simp [alistSet, alistGet, h]
      · by_cases h1 : k0 = k'
        · simp [alistSet, h0, alistGet, h1, Ne.symm h]
        · simp [alistSet, h0, alistGet, h1, ih]

theorem alistGet_remove_eq {α β : Type} [DecidableEq α]
    (l : List (α × β)) (k : α) : alistGet (alistRemove l k) k = none := by
  induction l with
  | nil => simp [alistRemove, alistGet]
  | cons hd tl ih =>
      obtain ⟨k0, v0⟩ := hd
      by_cases h : k0 = k
      · simpa [alistRemove, h] using ih
      · simpa [alistRemove, alistGet, h] using ih

theorem alistGet_remove_ne {α β : Type} [DecidableEq α]
    (l : List (α × β)) (k k' : α) (h : k ≠ k') :
    alistGet (alistRemove l k) k' = alistGet l k' := by
  induction l with
  | nil => simp [alistRemove, alistGet]
  | cons hd tl ih =>
      obtain ⟨k0, v0⟩ := hd
      by_cases h0 : k0 = k
      · simp [alistRemove, alistGet, h0, h, ih]
      · by_cases h1 : k0 = k'
        · simp [alistRemove, alistGet, h0, h1, Ne.symm h]
        · simp [alistRemove, alistGet, h0, h1, ih]

theorem alistSet_absent {α β : Type} [DecidableEq α]
    (l : List (α × β)) (k : α) (v : β) (h : alistGet l k = none) :
    alistSet l k v = l ++ [(k, v)] := by
  induction l with
  | nil => simp [alistSet]
  | cons hd tl ih =>
      obtain ⟨k0, v0⟩ := hd
      by_cases h0 : k0 = k
      · simp [alistGet, h0] at h
      · simp [alistGet, h0] at h
        simp [alistSet, h0, ih h]

/-! ### JavaScript `Set` of chunk indices

`ChunkInfo.uploadedChunks` in `uploadService.ts` is a JavaScript `Set`;
insertion is idempotent and preserves insertion order, `size` is the number
of distinct members.  Chunk numbers come from `parseInt` and are modelled
as integers. -/

def setAdd (l : List Int) (x : Int) : List Int :=
  if x ∈ l then l else l ++ [x]

theorem setAdd_mem (l : List Int) (x : Int) : x ∈ setAdd l x := by
  by_cases h : x ∈ l <;> simp [setAdd, h]

theorem setAdd_length_of_mem (l : List Int) (x : Int) (h : x ∈ l) :
    (setAdd l x).length = l.length := by
  simp [setAdd, h]

theorem setAdd_of_not_mem (l : List Int) (x : Int) (h : x ∉ l) :
    setAdd l x = l ++ [x] := by
  simp [setAdd, h]

theorem setAdd_idem (l : List Int) (x : Int) :
    setAdd (setAdd l x) x = setAdd l x := by
  conv_lhs =>
    rw [show setAdd (setAdd l x) x
          = if x ∈ setAdd l x then setAdd l x else setAdd l x ++ [x] from rfl]
  rw [if_pos (setAdd_mem l x)]

/-! ### JavaScript numbers

Exact rationals extended with `Infinity`, `-Infinity` and `NaN`; only the
operations the ETA computation uses (division, comparison with zero, and
`Math.round`) are modelled. -/

inductive JsNum : Type where
  | num : ℚ → JsNum
  | posInf : JsNum
  | negInf : JsNum
  | nan : JsNum
deriving DecidableEq, Repr

/-- JavaScript division, including the IEEE special cases produced by a
zero denominator. -/
def JsNum.div : JsNum → JsNum → JsNum
  | num a, num b =>
      if b = 0 then
        if a > 0 then posInf else if a < 0 then negInf else nan
      else num (a / b)
  | num _, posInf => num 0
  | num _, negInf => num 0
  | posInf, num b => if b ≥ 0 then posInf else negInf
  | negInf, num b => if b ≥ 0 then negInf else posInf
  | posInf, posInf => nan
  | posInf, negInf => nan
  | negInf, posInf => nan
  | negInf, negInf => nan
  | nan, _ => nan
  | _, nan => nan

/-- JavaScript `x > 0` (false for `NaN`). -/
def JsNum.gtZero : JsNum → Bool
  | num a => decide (0 < a)
  | posInf => true
  | negInf => false
  | nan => false

/-- JavaScript `Math.round`: half-way cases round toward positive
infinity, i.e. `round q = floor (q + 1/2)` on finite values. -/
def JsNum.round : JsNum → JsNum
  | num a => num ((⌊a + 1/2⌋ : ℤ) : ℚ)
  | posInf => posInf
  | negInf => negInf
  | nan => nan

/-- The ETA computation of `uploadService.ts` lines 182-185:
`rate = bytesUploaded / elapsed; eta = rate > 0 ? Math.round(remaining / rate) : 0`
with `remaining = totalBytes - bytesUploaded`. -/
def computeEta (bytesUploaded totalBytes : ℕ) (elapsed : ℤ) : JsNum :=
  let rate := JsNum.div (JsNum.num (bytesUploaded : ℚ)) (JsNum.num (elapsed : ℚ))
  let remaining : ℚ := (totalBytes : ℚ) - (bytesUploaded : ℚ)
  if rate.gtZero then (JsNum.div (JsNum.num remaining) rate).round
  else JsNum.num 0

/-! ### Inbound upload service data model (`uploadService.ts`)

Constants from lines 30-37; `ChunkInfo` and `UploadProgress` from lines
8-28.  Timestamps (`Date` values) are modelled as natural numbers of
milliseconds; chunk numbers (`parseInt(req.body.chunkNumber)`) as
integers. -/

def UPLOAD_CHUNK_SIZE : ℕ := 5 * 1024 * 1024

def MAX_FILE_SIZE : ℕ := 2 * 1024 * 1024 * 1024

def UPLOAD_TIMEOUT : ℕ := 30 * 60 * 1000

def videoFormats : List String := [".mp4", ".mov", ".avi", ".mkv", ".webm"]

def audioFormats : List String := [".mp3", ".wav", ".m4a", ".aac", ".flac"]

def textFormats : List String := [".txt", ".rtf", ".md", ".docx"]

def allowedFormats : List String := videoFormats ++ audioFormats ++ textFormats

/-- Index of the last dot character in a character list, if any. -/
def lastDotIdx : List Char → Option ℕ
  | [] => none
  | c :: rest =>
      match lastDotIdx rest with
      | some i => some (i + 1)
      | none => if c = '.' then some 0 else none

/-- `path.extname(filename).toLowerCase()` as used by `validateFileType`:
the suffix starting at the last dot, empty when there is no dot or the
name starts with its only dot. -/
def extnameLower (s : String) : String :=
  match lastDotIdx s.data with
  | none => ""
  | some 0 => ""
  | some i => String.mk ((s.data.drop i).map Char.toLower)

/-- `UploadService.validateFileType` (lines 62-75): the lowercased
extension must occur in one of the allowed format lists. -/
def validateFileType (filename : String) : Bool :=
  allowedFormats.contains (extnameLower filename)

/-- `UploadService.validateFileSize` (lines 77-85). -/
def validateFileSize (size : ℕ) : Bool :=
  decide (size ≤ MAX_FILE_SIZE)

inductive PStatus : Type where
  | uploading
  | processing
  | completed
  | error
  | cancelled
deriving DecidableEq, Repr

/-- `ChunkInfo` (lines 8-16). -/
structure ChunkInfo : Type where
  filename : String
  totalChunks : ℕ
  totalSize : ℕ
  uploadedChunks : List Int
  createdAt : ℕ
  lastActivity : ℕ
deriving DecidableEq, Repr

/-- `UploadProgress` (lines 18-28). -/
structure UploadProgress : Type where
  filename : String
  bytesUploaded : ℕ
  totalBytes : ℕ
  progress : ℚ
  eta : JsNum
  status : PStatus
  error : Option String
  startTime : ℕ
deriving DecidableEq, Repr

/-- The on-disk `uploads/<uploadId>/` directory of one session: chunk
files keyed by the chunk number embedded in the `chunk_<n>` name, plus the
assembled output file written by `finalizeUpload`. -/
structure SessionDir : Type where
  chunks : List (Int × Bytes)
  outFile : Option Bytes
deriving DecidableEq, Repr

/-- The mutable state of the `UploadService` singleton: the two session
maps plus the upload directories on disk. -/
structure ServiceState : Type where
  activeUploads : List (String × ChunkInfo)
  uploadProgress : List (String × UploadProgress)
  dirs : List (String × SessionDir)
deriving DecidableEq, Repr

def emptyState : ServiceState := ⟨[], [], []⟩

inductive InitResponse : Type where
  | badRequest : InitResponse
  | ok : String → ℕ → InitResponse
deriving DecidableEq, Repr

/-- `UploadService.initializeUpload` (lines 87-148).  The fresh
`uploadId` (a UUID in the source) and the current time are passed in.
Validation happens before any state is created: missing fields (empty or
zero values are falsy in JavaScript), then file type, then file size. -/
def initializeUpload (s : ServiceState) (uploadId filename : String)
    (totalSize totalChunks : ℕ) (now : ℕ) : ServiceState × InitResponse :=
  if filename = "" ∨ totalSize = 0 ∨ totalChunks = 0 then (s, .badRequest)
  else if ¬ validateFileType filename then (s, .badRequest)
  else if ¬ validateFileSize totalSize then (s, .badRequest)
  else
    ({ activeUploads := alistSet s.activeUploads uploadId
         { filename := filename, totalChunks := totalChunks,
           totalSize := totalSize, uploadedChunks := [],
           createdAt := now, lastActivity := now },
       uploadProgress := alistSet s.uploadProgress uploadId
         { filename := filename, bytesUploaded := 0, totalBytes := totalSize,
           progress := 0, eta := .num 0, status := .uploading,
           error := none, startTime := now },
       dirs := alistSet s.dirs uploadId { chunks := [], outFile := none } },
     .ok uploadId UPLOAD_CHUNK_SIZE)

/-- The progress-record update of `uploadChunk` lines 176-185: add the
chunk length to the byte counter, recompute the percentage and the ETA. -/
def stepPr (pr : UploadProgress) (blen : ℕ) (now : ℕ) : UploadProgress :=
  { pr with
    bytesUploaded := pr.bytesUploaded + blen,
    progress := ((pr.bytesUploaded + blen : ℕ) : ℚ) / (pr.totalBytes : ℚ) * 100,
    eta := computeEta (pr.bytesUploaded + blen) pr.totalBytes
      ((now : ℤ) - (pr.startTime : ℤ)) }

/-- `fs.readFile` of the missing `chunk_<k>` file aborts the assembly
loop of `finalizeUpload`; this computes the first index in
`0..totalChunks-1` whose chunk file does not exist. -/
def firstMissing (totalChunks : ℕ) (chunks : List (Int × Bytes)) : Option ℕ :=
  (List.range totalChunks).find? (fun i => (alistGet chunks (i : Int)).isNone)

/-- The bytes written to the output file by the assembly loop of
`finalizeUpload` (lines 218-225) after `k` iterations: the chunk payloads
for indices `0..k-1` concatenated in ascending order. -/
def assembleRange (chunks : List (Int × Bytes)) (k : ℕ) : Bytes :=
  (List.range k).flatMap (fun i => (alistGet chunks (i : Int)).getD [])

/-- The chunk files unlinked by the first `k` iterations of the assembly
loop (line 224). -/
def unlinkRange (chunks : List (Int × Bytes)) (k : ℕ) : List (Int × Bytes) :=
  (List.range k).foldl (fun c i => alistRemove c (i : Int)) chunks

/-- `UploadService.finalizeUpload` (lines 205-256).  On success: output
file written, every chunk file `chunk_0..chunk_{N-1}` unlinked, progress
marked `completed` with `progress = 100` and `eta = 0`, and the session
removed from `activeUploads`.  On a read failure at the first missing
chunk index `k`: chunks `0..k-1` were already written to the output file
and unlinked, the progress record is marked `error`, and the session is
NOT removed from `activeUploads` (the catch block at lines 248-255 only
touches the progress record). -/
def finalizeUpload (s : ServiceState) (uploadId : String) : ServiceState :=
  match alistGet s.activeUploads uploadId with
  | none =>
      match alistGet s.uploadProgress uploadId with
      | none => s
      | some pr =>
          let prE : UploadProgress :=
            { pr with status := .error, error := some "Failed to finalize upload" }
          { s with uploadProgress := alistSet s.uploadProgress uploadId prE }
  | some ci =>
      match alistGet s.uploadProgress uploadId with
      | none => s
      | some pr =>
          match alistGet s.dirs uploadId with
          | none =>
              let prE : UploadProgress :=
                { pr with status := .error,
                          error := some "Failed to finalize upload" }
              { s with uploadProgress := alistSet s.uploadProgress uploadId prE }
          | some d =>
              match firstMissing ci.totalChunks d.chunks with
              | none =>
                  let prC : UploadProgress :=
                    { pr with status := .completed, progress := 100,
                              eta := .num 0 }
                  let dC : SessionDir :=
                    { chunks := unlinkRange d.chunks ci.totalChunks,
                      outFile := some (assembleRange d.chunks ci.totalChunks) }
                  { activeUploads := alistRemove s.activeUploads uploadId,
                    uploadProgress := alistSet s.uploadProgress uploadId prC,
                    dirs := alistSet s.dirs uploadId dC }
              | some k =>
                  let prE : UploadProgress :=
                    { pr with status := .error,
                              error := some "Failed to finalize upload" }
                  let dE : SessionDir :=
                    { chunks := unlinkRange d.chunks k,
                      outFile := some (assembleRange d.chunks k) }
                  { s with
                    uploadProgress := alistSet s.uploadProgress uploadId prE,
                    dirs := alistSet s.dirs uploadId dE }

inductive ChunkResponse : Type where
  | notFound : ChunkResponse
  | serverError : ChunkResponse
  | ok : ℕ → ℕ → ℚ → JsNum → ChunkResponse
deriving DecidableEq, Repr

/-- `UploadService.uploadChunk` (lines 150-203).  `404` when the session
id is not in `activeUploads`; otherwise the chunk file is written, the
index added to the `uploadedChunks` set, the progress record updated, and
`finalizeUpload` runs synchronously when the set cardinality reaches
`totalChunks`.  The response reads the post-finalize progress record
because the source mutates the shared object in place.  A missing
directory or progress record makes the corresponding `await`/property
access throw, answered with a 500 after any mutations already made. -/
def uploadChunk (s : ServiceState) (uploadId : String) (chunkNumber : Int)
    (bytes : Bytes) (now : ℕ) : ServiceState × ChunkResponse :=
  match alistGet s.activeUploads uploadId with
  | none => (s, .notFound)
  | some ci =>
      match alistGet s.dirs uploadId with
      | none =>
          let ciT : ChunkInfo := { ci with lastActivity := now }
          ({ s with activeUploads := alistSet s.activeUploads uploadId ciT },
           .serverError)
      | some d =>
          let ci2 : ChunkInfo :=
            { ci with lastActivity := now,
                      uploadedChunks := setAdd ci.uploadedChunks chunkNumber }
          let d2 : SessionDir := { d with chunks := alistSet d.chunks chunkNumber bytes }
          match alistGet s.uploadProgress uploadId with
          | none =>
              ({ s with
                  activeUploads := alistSet s.activeUploads uploadId ci2,
                  dirs := alistSet s.dirs uploadId d2 }, .serverError)
          | some pr =>
              let pr2 := stepPr pr bytes.length now
              let s2 : ServiceState :=
                { activeUploads := alistSet s.activeUploads uploadId ci2,
                  uploadProgress := alistSet s.uploadProgress uploadId pr2,
                  dirs := alistSet s.dirs uploadId d2 }
              if ci2.uploadedChunks.length = ci2.totalChunks then
                let s3 := finalizeUpload s2 uploadId
                let prF := (alistGet s3.uploadProgress uploadId).getD pr2
                (s3, .ok ci2.uploadedChunks.length ci2.totalChunks
                       prF.progress prF.eta)
              else
                (s2, .ok ci2.uploadedChunks.length ci2.totalChunks
                       pr2.progress pr2.eta)

inductive ProgressResponse : Type where
  | notFound : ProgressResponse
  | ok : UploadProgress → ProgressResponse
deriving DecidableEq, Repr

/-- `UploadService.getUploadProgress` (lines 278-292): `404` exactly when
the id has no entry in the `uploadProgress` map. -/
def getUploadProgress (s : ServiceState) (uploadId : String) : ProgressResponse :=
  match alistGet s.uploadProgress uploadId with
  | none => .notFound
  | some pr => .ok pr

/-- `UploadService.cancelUpload` (lines 294-316): mark the progress
record `cancelled` when present, remove the upload directory, drop the
session from `activeUploads`.  The progress record itself is never
removed. -/
def cancelUpload (s : ServiceState) (uploadId : String) : ServiceState :=
  { activeUploads := alistRemove s.activeUploads uploadId,
    uploadProgress :=
      match alistGet s.uploadProgress uploadId with
      | none => s.uploadProgress
      | some pr => alistSet s.uploadProgress uploadId { pr with status := .cancelled },
    dirs := alistRemove s.dirs uploadId }

inductive ResumeResponse : Type where
  | notFound : ResumeResponse
  | ok : List Int → ℕ → Int → ResumeResponse
deriving DecidableEq, Repr

/-- `UploadService.getNextChunkNumber` (lines 353-360). -/
def getNextChunkNumber (ci : ChunkInfo) : Int :=
  match (List.range ci.totalChunks).find?
      (fun i => decide ((i : Int) ∉ ci.uploadedChunks)) with
  | some i => (i : Int)
  | none => -1

/-- `UploadService.resumeUpload` (lines 329-351). -/
def resumeUpload (s : ServiceState) (uploadId : String) (now : ℕ) :
    ServiceState × ResumeResponse :=
  match alistGet s.activeUploads uploadId with
  | none => (s, .notFound)
  | some ci =>
      let ciT : ChunkInfo := { ci with lastActivity := now }
      ({ s with activeUploads := alistSet s.activeUploads uploadId ciT },
       .ok ci.uploadedChunks ci.totalChunks (getNextChunkNumber ci))

/-- `UploadService.cleanupStaleUploads` (lines 51-60): every active
session whose `lastActivity` is strictly older than `now - UPLOAD_TIMEOUT`
is cancelled through `cancelUpload`. -/
def cleanupStaleUploads (s : ServiceState) (now : ℕ) : ServiceState :=
  s.activeUploads.foldl
    (fun st kv => if kv.2.lastActivity < now - UPLOAD_TIMEOUT
                  then cancelUpload st kv.1 else st) s

/-- One externally triggered operation on the upload service. -/
inductive Op : Type where
  | init : String → String → ℕ → ℕ → ℕ → Op
  | chunk : String → Int → Bytes → ℕ → Op
  | cancel : String → Op
  | resume : String → ℕ → Op
  | reap : ℕ → Op
deriving DecidableEq, Repr

def runOp (s : ServiceState) : Op → ServiceState
  | .init uploadId filename totalSize totalChunks now =>
      (initializeUpload s uploadId filename totalSize totalChunks now).1
  | .chunk uploadId chunkNumber bytes now =>
      (uploadChunk s uploadId chunkNumber bytes now).1
  | .cancel uploadId => cancelUpload s uploadId
  | .resume uploadId now => (resumeUpload s uploadId now).1
  | .reap now => cleanupStaleUploads s now

def runOps (s : ServiceState) (ops : List Op) : ServiceState :=
  ops.foldl runOp s

/-- Whether an operation is an `initializeUpload` call for `uploadId`
that passes all three validations and therefore creates the session. -/
def initAccepted (op : Op) (uploadId : String) : Bool :=
  match op with
  | .init uid filename totalSize totalChunks _ =>
      uid = uploadId && filename ≠ "" && totalSize ≠ 0 && totalChunks ≠ 0 &&
      validateFileType filename && validateFileSize totalSize
  | _ => false

/-! ### Claim C6: ETA formula -/

/-- C6: on every chunk event the recomputed ETA equals
`round((totalBytes - bytesTransferred) / (bytesTransferred / elapsedMillis))`
when bytes have moved and elapsed time is positive (in particular
`computeEta 250 1000 1000 = 3000`), and equals `0` — a finite number,
never `Infinity` or `NaN` — when no bytes have moved or the elapsed time
is zero; `uploadChunk` stores exactly this value in its response. -/
theorem claim_c6 :
    (∀ (b t : ℕ) (e : ℤ), b ≠ 0 → 0 < e →
      computeEta b t e
        = JsNum.num ((⌊((t : ℚ) - (b : ℚ)) / ((b : ℚ) / (e : ℚ)) + 1/2⌋ : ℤ) : ℚ)) ∧
    computeEta 250 1000 1000 = JsNum.num 3000 ∧
    (∀ (t : ℕ) (e : ℤ), computeEta 0 t e = JsNum.num 0) ∧
    (∀ (b t : ℕ), computeEta b t 0 = JsNum.num 0) ∧
    (∀ (s : ServiceState) (uploadId : String) (n : Int) (bts : Bytes) (now : ℕ)
        (ci : ChunkInfo) (d : SessionDir) (pr : UploadProgress),
      alistGet s.activeUploads uploadId = some ci →
      alistGet s.dirs uploadId = some d →
      alistGet s.uploadProgress uploadId = some pr →
      (setAdd ci.uploadedChunks n).length ≠ ci.totalChunks →
      (uploadChunk s uploadId n bts now).2
        = ChunkResponse.ok (setAdd ci.uploadedChunks n).length ci.totalChunks
            (stepPr pr bts.length now).progress
            (computeEta (pr.bytesUploaded + bts.length) pr.totalBytes
              ((now : ℤ) - (pr.startTime : ℤ)))) := by
  refine ⟨?_, by norm_num [computeEta, JsNum.div, JsNum.gtZero, JsNum.round], ?_, ?_, ?_⟩
  · intro b t e hb he
    have hbQ : (0 : ℚ) < (b : ℚ) := by
      exact_mod_cast Nat.pos_of_ne_zero hb
    have heQ : (0 : ℚ) < (e : ℚ) := by exact_mod_cast he
    have he0 : ¬ ((e : ℚ) = 0) := ne_of_gt heQ
    have hrate : (0 : ℚ) < (b : ℚ) / (e : ℚ) := div_pos hbQ heQ
    have hrate0 : ¬ ((b : ℚ) / (e : ℚ) = 0) := ne_of_gt hrate
    simp [computeEta, JsNum.div, JsNum.gtZero, JsNum.round, he0, hrate, hrate0]
  · intro t e
    rcases eq_or_ne ((e : ℚ)) 0 with h | h
    · simp [computeEta, JsNum.div, JsNum.gtZero, h]
    · simp [computeEta, JsNum.div, JsNum.gtZero, h]
  · intro b t
    rcases eq_or_ne ((b : ℚ)) 0 with h | h
    · simp [computeEta, JsNum.div, JsNum.gtZero, JsNum.round, h]
    · have hbQ : (0 : ℚ) < (b : ℚ) := lt_of_le_of_ne (Nat.cast_nonneg b) (Ne.symm h)
      simp [computeEta, JsNum.div, JsNum.gtZero, JsNum.round, h, hbQ]
      norm_num
  · intro s uploadId n bts now ci d pr hci hd hpr hlen
    simp only [uploadChunk, hci, hd, hpr]
    simp only [hlen, if_false, stepPr, computeEta]

/-- Witness for C6: a chunk event on a freshly initialized session with
250 bytes of 1000 after 1000 milliseconds answers with ETA 3000. -/
theorem claim_c6_witness :
    (uploadChunk (initializeUpload emptyState "u" "a.mp4" 1000 4 0).1 "u" 0
        (List.replicate 250 1) 1000).2
      = ChunkResponse.ok 1 4 25 (JsNum.num 3000) := by
  have h := claim_c6.2.2.2.2 (initializeUpload emptyState "u" "a.mp4" 1000 4 0).1
      "u" 0 (List.replicate 250 1) 1000
      { filename := "a.mp4", totalChunks := 4, totalSize := 1000,
        uploadedChunks := [], createdAt := 0, lastActivity := 0 }
      { chunks := [], outFile := none }
      { filename := "a.mp4", bytesUploaded := 0, totalBytes := 1000,
        progress := 0, eta := .num 0, status := .uploading,
        error := none, startTime := 0 }
      (by decide) (by decide) (by decide) (by decide)
  rw [h]
  have h3000 := claim_c6.2.1
  norm_num [stepPr, setAdd, h3000]

/-! ### Outbound chunked-upload adapters (`ctaService.ts`)

`ChunkedUploadHelpers` constants and chunk math from lines 404-406 and
792-809. -/

def OUT_CHUNK_SIZE : ℕ := 256 * 1024 * 1024

/-- `Math.ceil(fileSize / CHUNK_SIZE)` on natural numbers. -/
def totalChunksFor (fileSize : ℕ) : ℕ :=
  (fileSize + OUT_CHUNK_SIZE - 1) / OUT_CHUNK_SIZE

/-- `startByte` of chunk `i` (lines 492, 609, 760, 797). -/
def chunkStartByte (i : ℕ) : ℕ := i * OUT_CHUNK_SIZE

/-- `endByte = Math.min(startByte + CHUNK_SIZE - 1, fileSize - 1)`
(lines 493, 610, 761, 798). -/
def chunkEndByte (fileSize i : ℕ) : ℕ :=
  min (chunkStartByte i + OUT_CHUNK_SIZE - 1) (fileSize - 1)

/-- `chunkSize = endByte - startByte + 1` (lines 494, 799). -/
def chunkSizeAt (fileSize i : ℕ) : ℕ :=
  chunkEndByte fileSize i - chunkStartByte i + 1

structure OutChunk : Type where
  index : ℕ
  size : ℕ
  uploaded : Bool
deriving DecidableEq, Repr

/-- `ChunkedUploadHelpers.calculateChunks` (lines 792-809). -/
def calculateChunks (fileSize : ℕ) : List OutChunk :=
  (List.range (totalChunksFor fileSize)).map
    (fun i => { index := i, size := chunkSizeAt fileSize i, uploaded := false })

theorem chunkSizeAt_eq_min (fileSize i : ℕ)
    (h : chunkStartByte i < fileSize) :
    chunkSizeAt fileSize i = min OUT_CHUNK_SIZE (fileSize - chunkStartByte i) := by
  have hC : 0 < OUT_CHUNK_SIZE := by norm_num [OUT_CHUNK_SIZE]
  unfold chunkSizeAt chunkEndByte
  omega

theorem totalChunksFor_bounds (fileSize : ℕ) (h : 0 < fileSize) :
    0 < totalChunksFor fileSize ∧
    fileSize ≤ totalChunksFor fileSize * OUT_CHUNK_SIZE ∧
    (totalChunksFor fileSize - 1) * OUT_CHUNK_SIZE < fileSize := by
  have hC : 0 < OUT_CHUNK_SIZE := by norm_num [OUT_CHUNK_SIZE]
  set C := OUT_CHUNK_SIZE with hCdef
  set n := totalChunksFor fileSize with hndef
  have hn : n = (fileSize + C - 1) / C := rfl
  have hmod := Nat.div_add_mod (fileSize + C - 1) C
  have hr : (fileSize + C - 1) % C < C := Nat.mod_lt _ hC
  have hpos : 0 < n := by
    rw [hn]
    have : C ≤ fileSize + C - 1 := by omega
    exact Nat.one_le_div_iff hC |>.mpr this
  have hsub : (n - 1) * C = n * C - C := Nat.sub_one_mul n C
  constructor
  · exact hpos
  constructor
  · -- fileSize ≤ n * C
    rcases Nat.exists_eq_add_of_le (Nat.one_le_iff_ne_zero.mpr hpos.ne') with ⟨m, hm⟩
    have hmul : n * C = C * ((fileSize + C - 1) / C) := by
      rw [hn]; ring
    omega
  · -- (n - 1) * C < fileSize
    have hmul : n * C = C * ((fileSize + C - 1) / C) := by
      rw [hn]; ring
    omega

theorem sum_min_const (C fileSize : ℕ) (hC : 0 < C) :
    ∀ n, n * C ≤ fileSize →
      ((List.range n).map (fun i => min C (fileSize - i * C))).sum = n * C := by
  intro n
  induction n with
  | zero => simp
  | succ m ih =>
      intro h
      have hsucc : (m + 1) * C = m * C + C := by ring
      rw [hsucc] at h
      have hm : m * C ≤ fileSize := by omega
      rw [List.range_succ, List.map_append, List.sum_append, ih hm, hsucc]
      have hlast : min C (fileSize - m * C) = C := min_eq_left (by omega)
      simp [hlast]

theorem calculateChunks_sizes (fileSize : ℕ) (h : 0 < fileSize) :
    (calculateChunks fileSize).map OutChunk.size
      = (List.range (totalChunksFor fileSize)).map
          (fun i => min OUT_CHUNK_SIZE (fileSize - i * OUT_CHUNK_SIZE)) := by
  obtain ⟨hpos, hle, hlt⟩ := totalChunksFor_bounds fileSize h
  unfold calculateChunks
  rw [List.map_map]
  refine List.map_congr_left ?_
  intro i hi
  rw [List.mem_range] at hi
  have histart : chunkStartByte i < fileSize := by
    have h1 : i * OUT_CHUNK_SIZE ≤ (totalChunksFor fileSize - 1) * OUT_CHUNK_SIZE :=
      Nat.mul_le_mul_right _ (by omega)
    unfold chunkStartByte
    omega
  simp [Function.comp, chunkSizeAt_eq_min fileSize i histart, chunkStartByte]

/-- C7: for a file of size `S > 0` the chunk plan has `ceil(S / CHUNK_SIZE)`
chunks with consecutive indices from 0, every chunk but the last has size
`CHUNK_SIZE`, the last chunk is the remainder, the sizes sum to `S`
exactly, and the byte range used by the per-chunk upload calls matches the
plan. -/
theorem claim_c7 (S : ℕ) (hS : 0 < S) :
    (calculateChunks S).length = totalChunksFor S ∧
    (∀ i, i < totalChunksFor S →
      (calculateChunks S)[i]?
        = some { index := i, size := chunkSizeAt S i, uploaded := false }) ∧
    (∀ i, i + 1 < totalChunksFor S → chunkSizeAt S i = OUT_CHUNK_SIZE) ∧
    chunkSizeAt S (totalChunksFor S - 1)
      = S - (totalChunksFor S - 1) * OUT_CHUNK_SIZE ∧
    ((calculateChunks S).map OutChunk.size).sum = S ∧
    (∀ i, i < totalChunksFor S →
      chunkEndByte S i - chunkStartByte i + 1 = chunkSizeAt S i ∧
      chunkStartByte i = i * OUT_CHUNK_SIZE) := by
  obtain ⟨hpos, hle, hlt⟩ := totalChunksFor_bounds S hS
  have hC : 0 < OUT_CHUNK_SIZE := by norm_num [OUT_CHUNK_SIZE]
  refine ⟨?_, ?_, ?_, ?_, ?_, ?_⟩
  · simp [calculateChunks]
  · intro i hi
    simp [calculateChunks, List.getElem?_map, List.getElem?_range hi]
  · intro i hi
    have histart : i * OUT_CHUNK_SIZE < S := by
      have h1 : i * OUT_CHUNK_SIZE ≤ (totalChunksFor S - 1) * OUT_CHUNK_SIZE :=
        Nat.mul_le_mul_right _ (by omega)
      omega
    have hnext : (i + 1) * OUT_CHUNK_SIZE ≤ (totalChunksFor S - 1) * OUT_CHUNK_SIZE :=
      Nat.mul_le_mul_right _ (by omega)
    have hsucc : (i + 1) * OUT_CHUNK_SIZE = i * OUT_CHUNK_SIZE + OUT_CHUNK_SIZE := by
      ring
    rw [chunkSizeAt_eq_min S i (by unfold chunkStartByte; omega)]
    unfold chunkStartByte
    omega
  · have histart : (totalChunksFor S - 1) * OUT_CHUNK_SIZE < S := hlt
    rw [chunkSizeAt_eq_min S _ (by unfold chunkStartByte; omega)]
    have hsub : (totalChunksFor S - 1) * OUT_CHUNK_SIZE
        = totalChunksFor S * OUT_CHUNK_SIZE - OUT_CHUNK_SIZE :=
      Nat.sub_one_mul _ _
    unfold chunkStartByte
    omega
  · rw [calculateChunks_sizes S hS]
    obtain ⟨m, hm⟩ : ∃ m, totalChunksFor S = m + 1 :=
      ⟨totalChunksFor S - 1, by omega⟩
    rw [hm, List.range_succ, List.map_append, List.sum_append]
    have hmle : m * OUT_CHUNK_SIZE ≤ S := by
      have : m * OUT_CHUNK_SIZE = (totalChunksFor S - 1) * OUT_CHUNK_SIZE := by
        rw [hm]
        simp
      omega
    rw [sum_min_const OUT_CHUNK_SIZE S hC m hmle]
    have hsucc : (m + 1) * OUT_CHUNK_SIZE = m * OUT_CHUNK_SIZE + OUT_CHUNK_SIZE := by
      ring
    have hSle : S ≤ m * OUT_CHUNK_SIZE + OUT_CHUNK_SIZE := by
      rw [hm] at hle
      omega
    have hmin : min OUT_CHUNK_SIZE (S - m * OUT_CHUNK_SIZE) = S - m * OUT_CHUNK_SIZE := by
      apply min_eq_right
      omega
    have hmlt : m * OUT_CHUNK_SIZE < S := by
      have : m * OUT_CHUNK_SIZE = (totalChunksFor S - 1) * OUT_CHUNK_SIZE := by
        rw [hm]
        simp
      omega
    simp [hmin]
    omega
  · intro i _
    exact ⟨rfl, rfl⟩

/-- Witness for C7 at a concrete file size: 600 MiB splits into three
chunks of 256 MiB, 256 MiB and 88 MiB summing back to the file size. -/
theorem claim_c7_witness :
    0 < 629145600 ∧
    ((calculateChunks 629145600).map OutChunk.size).sum = 629145600 := by
  refine ⟨by norm_num, ?_⟩
  exact (claim_c7 629145600 (by norm_num)).2.2.2.2.1

/-! ### Claim C3: event order inside the assembly loop

The body of the `for` loop in `finalizeUpload` (lines 218-225) performs,
for each `i` in ascending order: `fs.readFile(chunk_i)`, then
`writeStream.write(chunkData)`, then `fs.unlink(chunk_i)`.  The trace
below lists those awaited I/O events in program order for the successful
assembly of `totalChunks` chunks. -/

inductive FinEvent : Type where
  | read : ℕ → FinEvent
  | write : ℕ → FinEvent
  | unlink : ℕ → FinEvent
deriving DecidableEq, Repr

def finalizeTrace (totalChunks : ℕ) : List FinEvent :=
  (List.range totalChunks).flatMap
    (fun i => [FinEvent.read i, FinEvent.write i, FinEvent.unlink i])

/-- Event `e1` occurs at a strictly earlier trace position than `e2`. -/
def occursBefore (tr : List FinEvent) (e1 e2 : FinEvent) : Prop :=
  ∃ a b : ℕ, a < b ∧ tr[a]? = some e1 ∧ tr[b]? = some e2

theorem finalizeTrace_succ (n : ℕ) :
    finalizeTrace (n + 1)
      = finalizeTrace n ++ [FinEvent.read n, FinEvent.write n, FinEvent.unlink n] := by
  simp [finalizeTrace, List.range_succ]

theorem finalizeTrace_length (n : ℕ) : (finalizeTrace n).length = 3 * n := by
  induction n with
  | zero => simp [finalizeTrace]
  | succ m ih =>
      rw [finalizeTrace_succ, List.length_append, ih]
      simp
      omega

theorem finalizeTrace_get (n i : ℕ) (h : i < n) :
    (finalizeTrace n)[3 * i]? = some (FinEvent.read i) ∧
    (finalizeTrace n)[3 * i + 1]? = some (FinEvent.write i) ∧
    (finalizeTrace n)[3 * i + 2]? = some (FinEvent.unlink i) := by
  induction n with
  | zero => omega
  | succ m ih =>
      rcases Nat.lt_succ_iff_lt_or_eq.mp h with h1 | h1
      · have hlen : 3 * i + 2 < (finalizeTrace m).length := by
          rw [finalizeTrace_length]
          omega
        rw [finalizeTrace_succ]
        obtain ⟨g1, g2, g3⟩ := ih h1
        refine ⟨?_, ?_, ?_⟩
        · rw [List.getElem?_append, if_pos (by omega), g1]
        · rw [List.getElem?_append, if_pos (by omega), g2]
        · rw [List.getElem?_append, if_pos (by omega), g3]
      · subst h1
        have hlen := finalizeTrace_length i
        rw [finalizeTrace_succ]
        refine ⟨?_, ?_, ?_⟩
        · rw [List.getElem?_append, if_neg (by omega)]
          rw [hlen]
          have h0 : 3 * i - 3 * i = 0 := by omega
          simp [h0]
        · rw [List.getElem?_append, if_neg (by omega)]
          rw [hlen]
          have h0 : 3 * i + 1 - 3 * i = 1 := by omega
          simp [h0]
        · rw [List.getElem?_append, if_neg (by omega)]
          rw [hlen]
          have h0 : 3 * i + 2 - 3 * i = 2 := by omega
          simp [h0]

/-- C3 counterexample: for a two-chunk session the claim that no chunk
file is unlinked before every chunk payload has been written to the
output file is false — the trace unlinks `chunk_0` (position 2) before it
writes chunk 1 (position 4). -/
theorem claim_c3_counterexample :
    ¬ (∀ (j i a b : ℕ), (finalizeTrace 2)[a]? = some (FinEvent.unlink j) →
        (finalizeTrace 2)[b]? = some (FinEvent.write i) → b < a) := by
  intro hclaim
  have h := hclaim 0 1 2 4 (by decide) (by decide)
  omega

/-- C3 amended: inside `finalizeUpload`, each chunk file `chunk_i` is
deleted immediately after chunk `i` itself has been written to the output
file — after the write of chunk `i` but before the write of any
later-indexed chunk, not after the full write of all chunks. -/
theorem claim_c3_amended (n i : ℕ) (h : i < n) :
    occursBefore (finalizeTrace n) (FinEvent.write i) (FinEvent.unlink i) ∧
    (∀ j, i < j → j < n →
      occursBefore (finalizeTrace n) (FinEvent.unlink i) (FinEvent.write j)) := by
  obtain ⟨_, gw, gu⟩ := finalizeTrace_get n i h
  constructor
  · exact ⟨3 * i + 1, 3 * i + 2, by omega, gw, gu⟩
  · intro j hij hj
    obtain ⟨_, gw2, _⟩ := finalizeTrace_get n j hj
    exact ⟨3 * i + 2, 3 * j + 1, by omega, gu, gw2⟩

/-- Witness for the amended C3 on a two-chunk trace: chunk 0 is written
before it is unlinked, and it is unlinked before chunk 1 is written. -/
theorem claim_c3_amended_witness :
    occursBefore (finalizeTrace 2) (FinEvent.write 0) (FinEvent.unlink 0) ∧
    occursBefore (finalizeTrace 2) (FinEvent.unlink 0) (FinEvent.write 1) := by
  have h := claim_c3_amended 2 0 (by decide)
  exact ⟨h.1, h.2 1 (by decide) (by decide)⟩

/-! ### Claims C2, C4, C5: chunk acceptance behaviour -/

/-- One `uploadChunk` call on a live session that does not reach full
cardinality: the chunk file is (over)written, the index added to the set,
the progress stepped, and no finalize runs. -/
theorem uploadChunk_nofin (s : ServiceState) (uploadId : String) (n : Int)
    (bts : Bytes) (now : ℕ) (ci : ChunkInfo) (d : SessionDir)
    (pr : UploadProgress)
    (hci : alistGet s.activeUploads uploadId = some ci)
    (hd : alistGet s.dirs uploadId = some d)
    (hpr : alistGet s.uploadProgress uploadId = some pr)
    (hlen : (setAdd ci.uploadedChunks n).length ≠ ci.totalChunks) :
    uploadChunk s uploadId n bts now
      = ({ activeUploads := alistSet s.activeUploads uploadId
             { ci with lastActivity := now,
                       uploadedChunks := setAdd ci.uploadedChunks n },
           uploadProgress := alistSet s.uploadProgress uploadId
             (stepPr pr bts.length now),
           dirs := alistSet s.dirs uploadId
             { d with chunks := alistSet d.chunks n bts } },
         .ok (setAdd ci.uploadedChunks n).length ci.totalChunks
           (stepPr pr bts.length now).progress (stepPr pr bts.length now).eta) := by
  simp only [uploadChunk, hci, hd, hpr]
  simp [hlen]

/-- C2 counterexample: on a two-chunk session, accepting chunk 0 with a
3-byte payload twice leaves the set cardinality at 1 but drives
`bytesUploaded` to 6 — the byte-progress counter counts the re-uploaded
chunk twice, contradicting the claim that it reflects the chunk size
exactly once. -/
theorem claim_c2_counterexample :
    (alistGet (uploadChunk (uploadChunk
        (initializeUpload emptyState "u1" "a.mp4" 10 2 0).1
        "u1" 0 [7, 7, 7] 0).1 "u1" 0 [7, 7, 7] 0).1.activeUploads
        "u1").map (fun c => c.uploadedChunks.length) = some 1 ∧
    (alistGet (uploadChunk
        (initializeUpload emptyState "u1" "a.mp4" 10 2 0).1
        "u1" 0 [7, 7, 7] 0).1.uploadProgress "u1").map
        (fun p => p.bytesUploaded) = some 3 ∧
    (alistGet (uploadChunk (uploadChunk
        (initializeUpload emptyState "u1" "a.mp4" 10 2 0).1
        "u1" 0 [7, 7, 7] 0).1 "u1" 0 [7, 7, 7] 0).1.uploadProgress
        "u1").map (fun p => p.bytesUploaded) = some 6 := by
  refine ⟨by decide, by decide, by decide⟩

/-- C2 amended: accepting the same `(sessionId, chunkIndex, bytes)` twice
yields the same `receivedChunkIndices` cardinality as accepting it once,
but `bytesUploaded` grows by the chunk length on every accept, so the
re-upload of an already-received index double-counts its bytes. -/
theorem claim_c2_amended (s : ServiceState) (uploadId : String) (n : Int)
    (bts : Bytes) (now : ℕ) (ci : ChunkInfo) (d : SessionDir)
    (pr : UploadProgress)
    (hci : alistGet s.activeUploads uploadId = some ci)
    (hd : alistGet s.dirs uploadId = some d)
    (hpr : alistGet s.uploadProgress uploadId = some pr)
    (hlen : (setAdd ci.uploadedChunks n).length ≠ ci.totalChunks) :
    (alistGet (uploadChunk (uploadChunk s uploadId n bts now).1
        uploadId n bts now).1.activeUploads uploadId).map
        (fun c => c.uploadedChunks.length)
      = (alistGet (uploadChunk s uploadId n bts now).1.activeUploads
          uploadId).map (fun c => c.uploadedChunks.length) ∧
    (alistGet (uploadChunk s uploadId n bts now).1.uploadProgress
        uploadId).map (fun p => p.bytesUploaded)
      = some (pr.bytesUploaded + bts.length) ∧
    (alistGet (uploadChunk (uploadChunk s uploadId n bts now).1
        uploadId n bts now).1.uploadProgress uploadId).map
        (fun p => p.bytesUploaded)
      = some (pr.bytesUploaded + bts.length + bts.length) := by
  have h1 := uploadChunk_nofin s uploadId n bts now ci d pr hci hd hpr hlen
  have hci2 : alistGet (uploadChunk s uploadId n bts now).1.activeUploads uploadId
      = some { ci with lastActivity := now,
                       uploadedChunks := setAdd ci.uploadedChunks n } := by
    rw [h1]
    exact alistGet_set_eq _ _ _
  have hd2 : alistGet (uploadChunk s uploadId n bts now).1.dirs uploadId
      = some { d with chunks := alistSet d.chunks n bts } := by
    rw [h1]
    exact alistGet_set_eq _ _ _
  have hpr2 : alistGet (uploadChunk s uploadId n bts now).1.uploadProgress uploadId
      = some (stepPr pr bts.length now) := by
    rw [h1]
    exact alistGet_set_eq _ _ _
  have hlen2 : (setAdd (setAdd ci.uploadedChunks n) n).length ≠ ci.totalChunks := by
    rw [setAdd_idem]
    exact hlen
  have h2 := uploadChunk_nofin (uploadChunk s uploadId n bts now).1 uploadId n bts now
      _ _ _ hci2 hd2 hpr2 hlen2
  refine ⟨?_, ?_, ?_⟩
  · rw [h2, hci2]
    simp [alistGet_set_eq, setAdd_idem]
  · rw [hpr2]
    simp [stepPr]
  · rw [h2]
    simp [alistGet_set_eq, stepPr]

/-- Witness for the amended C2 on the concrete session of the
counterexample. -/
theorem claim_c2_amended_witness :
    (alistGet (uploadChunk (uploadChunk
        (initializeUpload emptyState "u1" "a.mp4" 10 2 0).1
        "u1" 0 [7, 7, 7] 0).1 "u1" 0 [7, 7, 7] 0).1.uploadProgress
        "u1").map (fun p => p.bytesUploaded) = some (0 + 3 + 3) := by
  have h := claim_c2_amended (initializeUpload emptyState "u1" "a.mp4" 10 2 0).1
      "u1" 0 [7, 7, 7] 0
      { filename := "a.mp4", totalChunks := 2, totalSize := 10,
        uploadedChunks := [], createdAt := 0, lastActivity := 0 }
      { chunks := [], outFile := none }
      { filename := "a.mp4", bytesUploaded := 0, totalBytes := 10,
        progress := 0, eta := .num 0, status := .uploading,
        error := none, startTime := 0 }
      (by decide) (by decide) (by decide) (by decide)
  exact h.2.2

/-- C4 counterexample: on a freshly initialized two-chunk session,
`uploadChunk` accepts chunk index 5 (and even index -1): both are added
to `receivedChunkIndices` and written to chunk storage, although the
claim says no index outside `0..totalChunks-1` is ever accepted. -/
theorem claim_c4_counterexample :
    (alistGet (uploadChunk
        (initializeUpload emptyState "u1" "a.mp4" 10 2 0).1
        "u1" 5 [9] 0).1.activeUploads "u1").map (fun c => c.uploadedChunks)
      = some [5] ∧
    (alistGet (uploadChunk
        (initializeUpload emptyState "u1" "a.mp4" 10 2 0).1
        "u1" 5 [9] 0).1.dirs "u1").map (fun d => alistGet d.chunks 5)
      = some (some [9]) ∧
    (alistGet (uploadChunk
        (initializeUpload emptyState "u1" "a.mp4" 10 2 0).1
        "u1" (-1) [9] 0).1.activeUploads "u1").map (fun c => c.uploadedChunks)
      = some [-1] := by
  refine ⟨by decide, by decide, by decide⟩

/-- C4 amended: `uploadChunk` performs no bounds check on the chunk
index: every integer index, in particular any index `< 0` or
`≥ totalChunks`, is accepted — added to `receivedChunkIndices`, written
to chunk storage, counted by the completion cardinality, and answered
with a success response. -/
theorem claim_c4_amended (s : ServiceState) (uploadId : String) (n : Int)
    (bts : Bytes) (now : ℕ) (ci : ChunkInfo) (d : SessionDir)
    (pr : UploadProgress)
    (hci : alistGet s.activeUploads uploadId = some ci)
    (hd : alistGet s.dirs uploadId = some d)
    (hpr : alistGet s.uploadProgress uploadId = some pr)
    (hout : n < 0 ∨ (ci.totalChunks : Int) ≤ n)
    (hlen : (setAdd ci.uploadedChunks n).length ≠ ci.totalChunks) :
    ¬ (0 ≤ n ∧ n < (ci.totalChunks : Int)) ∧
    (alistGet (uploadChunk s uploadId n bts now).1.activeUploads
        uploadId).map (fun c => c.uploadedChunks)
      = some (setAdd ci.uploadedChunks n) ∧
    n ∈ setAdd ci.uploadedChunks n ∧
    (alistGet (uploadChunk s uploadId n bts now).1.dirs uploadId).map
        (fun dd => alistGet dd.chunks n) = some (some bts) ∧
    (uploadChunk s uploadId n bts now).2
      = .ok (setAdd ci.uploadedChunks n).length ci.totalChunks
          (stepPr pr bts.length now).progress (stepPr pr bts.length now).eta := by
  have h1 := uploadChunk_nofin s uploadId n bts now ci d pr hci hd hpr hlen
  refine ⟨by omega, ?_, setAdd_mem _ _, ?_, ?_⟩
  · rw [h1]
    simp [alistGet_set_eq]
  · rw [h1]
    simp [alistGet_set_eq]
  · rw [h1]

/-- Witness for the amended C4: index 5 on a two-chunk session is stored
and counted. -/
theorem claim_c4_amended_witness :
    (alistGet (uploadChunk
        (initializeUpload emptyState "u1" "a.mp4" 10 2 0).1
        "u1" 5 [9] 0).1.dirs "u1").map (fun d => alistGet d.chunks 5)
      = some (some [9]) := by
  have h := claim_c4_amended (initializeUpload emptyState "u1" "a.mp4" 10 2 0).1
      "u1" 5 [9] 0
      { filename := "a.mp4", totalChunks := 2, totalSize := 10,
        uploadedChunks := [], createdAt := 0, lastActivity := 0 }
      { chunks := [], outFile := none }
      { filename := "a.mp4", bytesUploaded := 0, totalBytes := 10,
        progress := 0, eta := .num 0, status := .uploading,
        error := none, startTime := 0 }
      (by decide) (by decide) (by decide) (by decide) (by decide)
  exact h.2.2.2.1

/-- C5 counterexample: a one-chunk session that received only the
out-of-range chunk 1 reaches full cardinality, finalize fails reading the
missing `chunk_0`, and the session ends in the terminal progress status
`error` — yet it is still present in `activeUploads` and a further
`uploadChunk` call is accepted (not answered with 404), mutating the
supposedly terminal session. -/
theorem claim_c5_counterexample :
    (alistGet (uploadChunk
        (initializeUpload emptyState "v1" "a.mp4" 10 1 0).1
        "v1" 1 [7] 0).1.uploadProgress "v1").map (fun p => p.status)
      = some PStatus.error ∧
    (alistGet (uploadChunk
        (initializeUpload emptyState "v1" "a.mp4" 10 1 0).1
        "v1" 1 [7] 0).1.activeUploads "v1").isSome = true ∧
    (uploadChunk (uploadChunk
        (initializeUpload emptyState "v1" "a.mp4" 10 1 0).1
        "v1" 1 [7] 0).1 "v1" 0 [1, 2] 0).2 ≠ ChunkResponse.notFound := by
  refine ⟨by decide, by decide, by decide⟩

/-- C5 amended: `uploadChunk` answers 404 and leaves the state unchanged
exactly when the session id is absent from `activeUploads`.  Unknown ids,
cancelled sessions and reaped sessions are absent (cancel removes the
entry), and a successful finalize removes the entry, so those cases do
answer 404; but a session whose finalize failed keeps its `activeUploads`
entry while its progress status is the terminal `error`, and chunk
uploads against it keep being accepted. -/
theorem claim_c5_amended :
    (∀ (s : ServiceState) (uploadId : String) (n : Int) (bts : Bytes) (now : ℕ),
      alistGet s.activeUploads uploadId = none →
      uploadChunk s uploadId n bts now = (s, ChunkResponse.notFound)) ∧
    (∀ (s : ServiceState) (uploadId : String),
      alistGet (cancelUpload s uploadId).activeUploads uploadId = none) ∧
    (∀ (s : ServiceState) (uploadId : String) (ci : ChunkInfo)
        (pr : UploadProgress) (d : SessionDir),
      alistGet s.activeUploads uploadId = some ci →
      alistGet s.uploadProgress uploadId = some pr →
      alistGet s.dirs uploadId = some d →
      firstMissing ci.totalChunks d.chunks = none →
      alistGet (finalizeUpload s uploadId).activeUploads uploadId = none) ∧
    (∀ (s : ServiceState) (uploadId : String) (ci : ChunkInfo)
        (pr : UploadProgress) (d : SessionDir) (k : ℕ),
      alistGet s.activeUploads uploadId = some ci →
      alistGet s.uploadProgress uploadId = some pr →
      alistGet s.dirs uploadId = some d →
      firstMissing ci.totalChunks d.chunks = some k →
      alistGet (finalizeUpload s uploadId).activeUploads uploadId = some ci ∧
      (alistGet (finalizeUpload s uploadId).uploadProgress uploadId).map
          (fun p => p.status) = some PStatus.error) ∧
    (∀ (s : ServiceState) (uploadId : String) (n : Int) (bts : Bytes) (now : ℕ)
        (ci : ChunkInfo) (d : SessionDir) (pr : UploadProgress),
      alistGet s.activeUploads uploadId = some ci →
      alistGet s.dirs uploadId = some d →
      alistGet s.uploadProgress uploadId = some pr →
      (uploadChunk s uploadId n bts now).2 ≠ ChunkResponse.notFound) := by
  refine ⟨?_, ?_, ?_, ?_, ?_⟩
  · intro s uploadId n bts now h
    simp [uploadChunk, h]
  · intro s uploadId
    exact alistGet_remove_eq _ _
  · intro s uploadId ci pr d hci hpr hd hfm
    simp only [finalizeUpload, hci, hpr, hd, hfm]
    exact alistGet_remove_eq _ _
  · intro s uploadId ci pr d k hci hpr hd hfm
    exact ⟨by simp [finalizeUpload, hci, hpr, hd, hfm],
           by simp [finalizeUpload, hci, hpr, hd, hfm, alistGet_set_eq]⟩
  · intro s uploadId n bts now ci d pr hci hd hpr
    simp only [uploadChunk, hci, hd, hpr]
    split <;> simp

/-- Witness for the amended C5: an unknown id answers 404 without state
change, and a cancelled session is gone from the active table. -/
theorem claim_c5_amended_witness :
    uploadChunk emptyState "x" 0 [] 0 = (emptyState, ChunkResponse.notFound) ∧
    alistGet (cancelUpload (initializeUpload emptyState "u1" "a.mp4" 10 2 0).1
        "u1").activeUploads "u1" = none :=
  ⟨claim_c5_amended.1 emptyState "x" 0 [] 0 (by decide),
   claim_c5_amended.2.1 (initializeUpload emptyState "u1" "a.mp4" 10 2 0).1 "u1"⟩

/-! ### Claim C1: order-independent assembly

A session that receives chunks `0..N-1` in an arbitrary order (one
`uploadChunk` call per index) assembles, on the call that completes the
cardinality, an output file equal to the concatenation of the payloads in
ascending index order. -/

/-- All chunk-upload calls of one client, applied in order. -/
def runChunkSeq (s : ServiceState) (uploadId : String) (payload : ℕ → Bytes)
    (now : ℕ) (l : List ℕ) : ServiceState :=
  l.foldl (fun st (i : ℕ) => (uploadChunk st uploadId (i : Int) (payload i) now).1) s

/-- The progress record after the chunk events for `p`, in order. -/
def prSeq (pr0 : UploadProgress) (payload : ℕ → Bytes) (now : ℕ)
    (p : List ℕ) : UploadProgress :=
  p.foldl (fun pr i => stepPr pr (payload i).length now) pr0

/-- The progress record created by `initializeUpload`. -/
def initPr (filename : String) (totalSize t : ℕ) : UploadProgress :=
  { filename := filename, bytesUploaded := 0, totalBytes := totalSize,
    progress := 0, eta := .num 0, status := .uploading,
    error := none, startTime := t }

/-- The service state after `initializeUpload` followed by the accepted
chunk uploads for the indices in `p` (all calls carrying timestamp `t`),
as long as the cardinality has not yet reached `N`. -/
def midState (uploadId filename : String) (N S t : ℕ) (payload : ℕ → Bytes)
    (p : List ℕ) : ServiceState :=
  { activeUploads := [(uploadId,
      { filename := filename, totalChunks := N, totalSize := S,
        uploadedChunks := p.map (fun (j : ℕ) => (j : Int)),
        createdAt := t, lastActivity := t })],
    uploadProgress := [(uploadId, prSeq (initPr filename S t) payload t p)],
    dirs := [(uploadId,
      { chunks := p.map (fun (j : ℕ) => ((j : Int), payload j)), outFile := none })] }

theorem mapPair_get_not_mem (payload : ℕ → Bytes) (p : List ℕ) (i : ℕ)
    (hi : i ∉ p) :
    alistGet (p.map (fun (j : ℕ) => ((j : Int), payload j))) (i : Int) = none := by
  induction p with
  | nil => simp [alistGet]
  | cons a rest ih =>
      simp only [List.map_cons, alistGet]
      have hai : ¬ ((a : Int) = (i : Int)) := by
        intro h
        have ha : a = i := by exact_mod_cast h
        subst ha
        exact hi (List.mem_cons_self a rest)
      rw [if_neg hai]
      exact ih (fun hmem => hi (List.mem_cons_of_mem a hmem))

theorem mapPair_get_mem (payload : ℕ → Bytes) (p : List ℕ) (i : ℕ)
    (hi : i ∈ p) :
    alistGet (p.map (fun (j : ℕ) => ((j : Int), payload j))) (i : Int)
      = some (payload i) := by
  induction p with
  | nil => cases hi
  | cons a rest ih =>
      simp only [List.map_cons, alistGet]
      by_cases hai : (a : Int) = (i : Int)
      · have ha : a = i := by exact_mod_cast hai
        subst ha
        rw [if_pos rfl]
      · rw [if_neg hai]
        apply ih
        rcases List.mem_cons.mp hi with h | h
        · subst h
          exact absurd rfl hai
        · exact h

theorem castList_not_mem (p : List ℕ) (i : ℕ) (hi : i ∉ p) :
    (i : Int) ∉ p.map (fun (j : ℕ) => (j : Int)) := by
  intro hmem
  rcases List.mem_map.mp hmem with ⟨j, hj, hcast⟩
  have hji : j = i := by exact_mod_cast hcast
  subst hji
  exact hi hj

theorem flatMap_congr {α β : Type} (l : List α) (f g : α → List β)
    (h : ∀ a ∈ l, f a = g a) : l.flatMap f = l.flatMap g := by
  induction l with
  | nil => rfl
  | cons a rest ih =>
      simp only [List.flatMap_cons]
      rw [h a (List.mem_cons_self a rest),
          ih (fun b hb => h b (List.mem_cons_of_mem a hb))]

theorem firstMissing_none (N : ℕ) (chunks : List (Int × Bytes))
    (h : ∀ j, j < N → (alistGet chunks (j : Int)).isSome = true) :
    firstMissing N chunks = none := by
  unfold firstMissing
  rw [List.find?_eq_none]
  intro a ha
  rw [List.mem_range] at ha
  have hs := h a ha
  cases halt : alistGet chunks (a : Int) with
  | none => rw [halt] at hs; simp at hs
  | some _ => simp [halt]

theorem assembleRange_eq (chunks : List (Int × Bytes)) (payload : ℕ → Bytes)
    (N : ℕ) (h : ∀ j, j < N → alistGet chunks (j : Int) = some (payload j)) :
    assembleRange chunks N = (List.range N).flatMap payload := by
  unfold assembleRange
  exact flatMap_congr _ _ _
    (fun a ha => by rw [h a (List.mem_range.mp ha)]; rfl)

/-- One `uploadChunk` call whose new cardinality reaches `totalChunks`:
the state is the finalize of the post-write state. -/
theorem uploadChunk_fin (s : ServiceState) (uploadId : String) (n : Int)
    (bts : Bytes) (now : ℕ) (ci : ChunkInfo) (d : SessionDir)
    (pr : UploadProgress)
    (hci : alistGet s.activeUploads uploadId = some ci)
    (hd : alistGet s.dirs uploadId = some d)
    (hpr : alistGet s.uploadProgress uploadId = some pr)
    (hlen : (setAdd ci.uploadedChunks n).length = ci.totalChunks) :
    (uploadChunk s uploadId n bts now).1
      = finalizeUpload
          { activeUploads := alistSet s.activeUploads uploadId
              { ci with lastActivity := now,
                        uploadedChunks := setAdd ci.uploadedChunks n },
            uploadProgress := alistSet s.uploadProgress uploadId
              (stepPr pr bts.length now),
            dirs := alistSet s.dirs uploadId
              { d with chunks := alistSet d.chunks n bts } }
          uploadId := by
  simp only [uploadChunk, hci, hd, hpr]
  simp [hlen]

theorem finalize_success (s : ServiceState) (uploadId : String)
    (ci : ChunkInfo) (pr : UploadProgress) (d : SessionDir)
    (hci : alistGet s.activeUploads uploadId = some ci)
    (hpr : alistGet s.uploadProgress uploadId = some pr)
    (hd : alistGet s.dirs uploadId = some d)
    (hfm : firstMissing ci.totalChunks d.chunks = none) :
    alistGet (finalizeUpload s uploadId).activeUploads uploadId = none ∧
    (alistGet (finalizeUpload s uploadId).uploadProgress uploadId).map
        (fun q => q.status) = some PStatus.completed ∧
    (alistGet (finalizeUpload s uploadId).dirs uploadId).map
        (fun dd => dd.outFile)
      = some (some (assembleRange d.chunks ci.totalChunks)) := by
  simp only [finalizeUpload, hci, hpr, hd, hfm]
  exact ⟨alistGet_remove_eq _ _, by simp [alistGet_set_eq], by simp [alistGet_set_eq]⟩

/-- A non-completing accepted chunk moves `midState p` to
`midState (p ++ [i])`. -/
theorem step_mid (uploadId filename : String) (N S t : ℕ)
    (payload : ℕ → Bytes) (p : List ℕ) (i : ℕ)
    (hi : i ∉ p) (hlen : p.length + 1 ≠ N) :
    (uploadChunk (midState uploadId filename N S t payload p) uploadId (i : Int)
        (payload i) t).1
      = midState uploadId filename N S t payload (p ++ [i]) := by
  have hmemInt := castList_not_mem p i hi
  have hsa : setAdd (p.map (fun (j : ℕ) => (j : Int))) (i : Int)
      = p.map (fun (j : ℕ) => (j : Int)) ++ [(i : Int)] :=
    setAdd_of_not_mem _ _ hmemInt
  have hgetnone := mapPair_get_not_mem payload p i hi
  have h1 := uploadChunk_nofin (midState uploadId filename N S t payload p)
      uploadId (i : Int) (payload i) t
      { filename := filename, totalChunks := N, totalSize := S,
        uploadedChunks := p.map (fun (j : ℕ) => (j : Int)),
        createdAt := t, lastActivity := t }
      { chunks := p.map (fun (j : ℕ) => ((j : Int), payload j)), outFile := none }
      (prSeq (initPr filename S t) payload t p)
      (by simp [midState, alistGet]) (by simp [midState, alistGet])
      (by simp [midState, alistGet])
      (by rw [hsa]; simpa using hlen)
  rw [h1]
  simp [midState, alistSet, prSeq, List.foldl_append, hsa, List.map_append,
    alistSet_absent _ _ _ hgetnone]

/-- The accepted chunk that completes the cardinality triggers the
synchronous finalize, which assembles the payloads in ascending index
order, marks the progress record completed, and drops the session from
`activeUploads`. -/
theorem final_mid (uploadId filename : String) (N S t : ℕ)
    (payload : ℕ → Bytes) (p : List ℕ) (i : ℕ)
    (hi : i ∉ p) (hlen : p.length + 1 = N)
    (hcover : ∀ j, j < N → j ∈ p ++ [i]) :
    alistGet (uploadChunk (midState uploadId filename N S t payload p) uploadId
        (i : Int) (payload i) t).1.activeUploads uploadId = none ∧
    (alistGet (uploadChunk (midState uploadId filename N S t payload p) uploadId
        (i : Int) (payload i) t).1.uploadProgress uploadId).map
        (fun q => q.status) = some PStatus.completed ∧
    (alistGet (uploadChunk (midState uploadId filename N S t payload p) uploadId
        (i : Int) (payload i) t).1.dirs uploadId).map (fun dd => dd.outFile)
      = some (some ((List.range N).flatMap payload)) := by
  have hmemInt := castList_not_mem p i hi
  have hsa := setAdd_of_not_mem _ _ hmemInt
  have hgetnone := mapPair_get_not_mem payload p i hi
  have hchunks : alistSet (p.map (fun (k : ℕ) => ((k : Int), payload k)))
        (i : Int) (payload i)
      = (p ++ [i]).map (fun (k : ℕ) => ((k : Int), payload k)) := by
    rw [alistSet_absent _ _ _ hgetnone, List.map_append]
    simp
  have hget_j : ∀ j, j < N →
      alistGet ((p ++ [i]).map (fun (k : ℕ) => ((k : Int), payload k))) (j : Int)
        = some (payload j) :=
    fun j hj => mapPair_get_mem payload (p ++ [i]) j (hcover j hj)
  have h1 := uploadChunk_fin (midState uploadId filename N S t payload p)
      uploadId (i : Int) (payload i) t
      ⟨filename, N, S, p.map (fun (k : ℕ) => (k : Int)), t, t⟩
      ⟨p.map (fun (k : ℕ) => ((k : Int), payload k)), none⟩
      (prSeq (initPr filename S t) payload t p)
      (by simp [midState, alistGet]) (by simp [midState, alistGet])
      (by simp [midState, alistGet])
      (by rw [hsa]; simpa using hlen)
  rw [h1]
  have hfm : firstMissing N
      (alistSet (p.map (fun (k : ℕ) => ((k : Int), payload k))) (i : Int)
        (payload i)) = none := by
    rw [hchunks]
    exact firstMissing_none N _ (fun j hj => by rw [hget_j j hj]; rfl)
  have h2 := finalize_success
      { activeUploads := alistSet
          (midState uploadId filename N S t payload p).activeUploads uploadId
          ⟨filename, N, S, setAdd (p.map (fun (k : ℕ) => (k : Int))) (i : Int),
            t, t⟩,
        uploadProgress := alistSet
          (midState uploadId filename N S t payload p).uploadProgress uploadId
          (stepPr (prSeq (initPr filename S t) payload t p) (payload i).length t),
        dirs := alistSet
          (midState uploadId filename N S t payload p).dirs uploadId
          ⟨alistSet (p.map (fun (k : ℕ) => ((k : Int), payload k))) (i : Int)
            (payload i), none⟩ }
      uploadId
      ⟨filename, N, S, setAdd (p.map (fun (k : ℕ) => (k : Int))) (i : Int), t, t⟩
      (stepPr (prSeq (initPr filename S t) payload t p) (payload i).length t)
      ⟨alistSet (p.map (fun (k : ℕ) => ((k : Int), payload k))) (i : Int)
        (payload i), none⟩
      (alistGet_set_eq _ _ _) (alistGet_set_eq _ _ _) (alistGet_set_eq _ _ _)
      hfm
  have hassemble : assembleRange
      (alistSet (p.map (fun (k : ℕ) => ((k : Int), payload k))) (i : Int)
        (payload i)) N
      = (List.range N).flatMap payload := by
    rw [hchunks]
    exact assembleRange_eq _ payload N hget_j
  exact ⟨h2.1, h2.2.1, by rw [h2.2.2, hassemble]⟩

/-- Running the remaining chunk uploads of a permutation of `0..N-1`
from the matching mid-state completes the session with the in-order
assembled output. -/
theorem c1_run (uploadId filename : String) (N S t : ℕ) (payload : ℕ → Bytes) :
    ∀ (rest p : List ℕ), (p ++ rest).Perm (List.range N) → rest ≠ [] →
    alistGet (runChunkSeq (midState uploadId filename N S t payload p)
        uploadId payload t rest).activeUploads uploadId = none ∧
    (alistGet (runChunkSeq (midState uploadId filename N S t payload p)
        uploadId payload t rest).uploadProgress uploadId).map
        (fun q => q.status) = some PStatus.completed ∧
    (alistGet (runChunkSeq (midState uploadId filename N S t payload p)
        uploadId payload t rest).dirs uploadId).map (fun dd => dd.outFile)
      = some (some ((List.range N).flatMap payload)) := by
  intro rest
  induction rest with
  | nil => intro p _ hne; exact absurd rfl hne
  | cons i rest' ih =>
      intro p hperm _
      have hnodup : (p ++ i :: rest').Nodup :=
        hperm.nodup_iff.mpr (List.nodup_range N)
      have hlen_total : p.length + (rest'.length + 1) = N := by
        have hl := hperm.length_eq
        simp [List.length_append] at hl
        omega
      have hi : i ∉ p := by
        intro hmem
        rcases List.nodup_append.mp hnodup with ⟨_, _, hdisj⟩
        exact hdisj hmem (List.mem_cons_self i rest')
      cases rest' with
      | nil =>
          have hlen : p.length + 1 = N := by simpa using hlen_total
          have hcover : ∀ j, j < N → j ∈ p ++ [i] := by
            intro j hj
            exact hperm.mem_iff.mpr (List.mem_range.mpr hj)
          have hrun : runChunkSeq (midState uploadId filename N S t payload p)
              uploadId payload t [i]
              = (uploadChunk (midState uploadId filename N S t payload p)
                  uploadId (i : Int) (payload i) t).1 := rfl
          rw [hrun]
          exact final_mid uploadId filename N S t payload p i hi hlen hcover
      | cons i2 rest'' =>
          have hlen_ne : p.length + 1 ≠ N := by
            simp at hlen_total
            omega
          have hstep := step_mid uploadId filename N S t payload p i hi hlen_ne
          have hrw : runChunkSeq (midState uploadId filename N S t payload p)
              uploadId payload t (i :: i2 :: rest'')
              = runChunkSeq (midState uploadId filename N S t payload (p ++ [i]))
                  uploadId payload t (i2 :: rest'') := by
            simp only [runChunkSeq, List.foldl_cons]
            rw [show (uploadChunk (midState uploadId filename N S t payload p)
                uploadId (i : Int) (payload i) t).1
                  = midState uploadId filename N S t payload (p ++ [i]) from hstep]
          rw [hrw]
          apply ih (p ++ [i])
          · have hassoc : (p ++ [i]) ++ (i2 :: rest'') = p ++ (i :: i2 :: rest'') := by
              simp
            rw [hassoc]
            exact hperm
          · simp

/-- C1: a session initialized with valid parameters whose `N` chunks with
indices `0..N-1` are each accepted once, in an arbitrary submission
order, ends with the session finalized: the progress status is
`completed`, the session left `activeUploads`, the assembled output file
equals the concatenation of the chunk payloads in ascending index order,
and the assembly loop reads the chunk payloads in strictly ascending
index order. -/
theorem claim_c1 (uploadId filename : String) (S N t : ℕ)
    (payload : ℕ → Bytes) (perm : List ℕ)
    (hperm : perm.Perm (List.range N))
    (hname : filename ≠ "") (htype : validateFileType filename = true)
    (hS : S ≠ 0) (hSmax : S ≤ MAX_FILE_SIZE) (hN : N ≠ 0) :
    alistGet (runChunkSeq (initializeUpload emptyState uploadId filename S N t).1
        uploadId payload t perm).activeUploads uploadId = none ∧
    (alistGet (runChunkSeq (initializeUpload emptyState uploadId filename S N t).1
        uploadId payload t perm).uploadProgress uploadId).map
        (fun q => q.status) = some PStatus.completed ∧
    (alistGet (runChunkSeq (initializeUpload emptyState uploadId filename S N t).1
        uploadId payload t perm).dirs uploadId).map (fun dd => dd.outFile)
      = some (some ((List.range N).flatMap payload)) ∧
    (∀ i j, i < j → j < N →
      occursBefore (finalizeTrace N) (FinEvent.read i) (FinEvent.read j)) := by
  have hinit : (initializeUpload emptyState uploadId filename S N t).1
      = midState uploadId filename N S t payload [] := by
    simp [initializeUpload, hname, hS, hN, htype, validateFileSize, hSmax,
      midState, emptyState, alistSet, prSeq, initPr]
  have hne : perm ≠ [] := by
    intro h
    subst h
    have hl := hperm.length_eq
    simp at hl
    exact hN hl.symm
  have h := c1_run uploadId filename N S t payload perm []
      (by simpa using hperm) hne
  rw [hinit]
  refine ⟨h.1, h.2.1, h.2.2, ?_⟩
  intro i j hij hj
  obtain ⟨g1, _, _⟩ := finalizeTrace_get N i (lt_trans hij hj)
  obtain ⟨g2, _, _⟩ := finalizeTrace_get N j hj
  exact ⟨3 * i, 3 * j, by omega, g1, g2⟩

/-- Witness for C1: two 2-byte chunks submitted in the order 1, 0 yield
the output file `payload 0 ++ payload 1`. -/
theorem claim_c1_witness :
    (alistGet (runChunkSeq (initializeUpload emptyState "w1" "a.mp4" 6 2 0).1
        "w1" (fun i => [i, i]) 0 [1, 0]).dirs "w1").map (fun dd => dd.outFile)
      = some (some [0, 0, 1, 1]) := by
  have h := claim_c1 "w1" "a.mp4" 6 2 0 (fun i => [i, i]) [1, 0]
      (by decide) (by decide) (by decide) (by decide) (by decide) (by decide)
  have h3 := h.2.2.1
  have hval : (List.range 2).flatMap (fun i => [i, i]) = [0, 0, 1, 1] := by decide
  rw [hval] at h3
  exact h3

/-! ### Outbound adapter sessions and per-chunk calls (`ctaService.ts`)

`UploadSession` / `ChunkUploadResult` from lines 378-402.  The single
`fetch` each chunk-upload method performs is abstracted by the HTTP
status the remote answers; each embedded function additionally returns
the number of remote calls it made, so that the at-most-one-attempt
behaviour is part of the model.  `response.ok` is status 200-299. -/

inductive OutStatus : Type where
  | initialized
  | uploading
  | completed
  | failed
deriving DecidableEq, Repr

structure OutSession : Type where
  id : String
  platform : String
  fileName : String
  fileSize : ℕ
  uploadUrl : Option String
  uploadId : Option String
  chunks : List OutChunk
  status : OutStatus
deriving DecidableEq, Repr

structure ChunkUploadResult : Type where
  success : Bool
  etag : Option String := none
  error : Option String := none
  bytesUploaded : Option ℕ := none
deriving DecidableEq, Repr

/-- `Response.ok`: HTTP status in the range 200-299. -/
def respOk (status : ℕ) : Bool :=
  decide (200 ≤ status) && decide (status < 300)

/-- `s.split('_')[0]`: the prefix of `s` before its first underscore. -/
def splitFirst (s : String) : String :=
  String.mk (s.data.takeWhile (fun c => c ≠ '_'))

/-- The session id built by `initializeXUpload` (line 568):
`twitter_${Date.now()}_${random}`. -/
def mkXSessionId (now : ℕ) (rand : String) : String :=
  "twitter_" ++ toString now ++ "_" ++ rand

/-- The argument `session.id.split('_')[0]` passed as `userId` to
`oauthService.getValidToken` in `uploadXChunk` (line 599) and
`finalizeXUpload` (line 653). -/
def xTokenUserArg (session : OutSession) : String :=
  splitFirst session.id

/-- `ChunkedUploadHelpers.initializeXUpload` (lines 536-590), success
path: the INIT HTTP round-trip is abstracted by the `mediaId` the remote
returned.  Note that the generated session id embeds the platform name,
a timestamp and a random suffix — the `userId` argument is used only for
the token lookup of the INIT call and is not recorded in the session. -/
def initializeXUpload (_userId : String) (fileName : String) (fileSize : ℕ)
    (now : ℕ) (rand : String) (mediaId : String) : OutSession :=
  { id := mkXSessionId now rand, platform := "twitter", fileName := fileName,
    fileSize := fileSize, uploadUrl := none, uploadId := some mediaId,
    chunks := calculateChunks fileSize, status := .initialized }

/-- `ChunkedUploadHelpers.uploadXChunk` (lines 592-644).  Result,
number of remote calls made, and the updated session table.  Thrown
errors are the catch-block failure results of the source. -/
def uploadXChunk (sessions : List (String × OutSession))
    (getValidToken : String → String → Option String)
    (sessionId : String) (chunkIndex : ℕ) (chunkBytes : Bytes)
    (respStatus : ℕ) :
    ChunkUploadResult × ℕ × List (String × OutSession) :=
  match alistGet sessions sessionId with
  | none => ({ success := false, error := some "Invalid X upload session" },
             0, sessions)
  | some session =>
      if session.platform ≠ "twitter" then
        ({ success := false, error := some "Invalid X upload session" },
         0, sessions)
      else
        match getValidToken (xTokenUserArg session) "twitter" with
        | none => ({ success := false,
                     error := some "X access token not available" }, 0, sessions)
        | some _ =>
            match session.chunks[chunkIndex]? with
            | none => ({ success := false, error := some "Invalid chunk index" },
                       0, sessions)
            | some chunk =>
                if respOk respStatus then
                  let session2 : OutSession :=
                    { session with
                      chunks := session.chunks.set chunkIndex
                        { chunk with uploaded := true },
                      status := .uploading }
                  ({ success := true, bytesUploaded := some chunkBytes.length },
                   1, alistSet sessions sessionId session2)
                else
                  ({ success := false,
                     error := some ("X chunk upload failed: "
                       ++ toString respStatus) }, 1, sessions)

/-- `ChunkedUploadHelpers.finalizeXUpload` (lines 646-685). -/
def finalizeXUpload (sessions : List (String × OutSession))
    (getValidToken : String → String → Option String)
    (sessionId : String) (respStatus : ℕ) :
    (Bool × Option String × Option String) × ℕ × List (String × OutSession) :=
  match alistGet sessions sessionId with
  | none => ((false, none, some "Invalid X upload session"), 0, sessions)
  | some session =>
      if session.platform ≠ "twitter" then
        ((false, none, some "Invalid X upload session"), 0, sessions)
      else
        match getValidToken (xTokenUserArg session) "twitter" with
        | none => ((false, none, some "X access token not available"), 0, sessions)
        | some _ =>
            if respOk respStatus then
              ((true, session.uploadId, none), 1,
               alistSet sessions sessionId
                 { session with status := .completed })
            else
              ((false, none, some ("X upload finalization failed: "
                 ++ toString respStatus)), 1, sessions)

/-- `ChunkedUploadHelpers.uploadTikTokChunk` (lines 748-790): no token
lookup in the chunk call; the single POST goes to the upload URL from
init. -/
def uploadTikTokChunk (sessions : List (String × OutSession))
    (sessionId : String) (chunkIndex : ℕ) (chunkBytes : Bytes)
    (respStatus : ℕ) :
    ChunkUploadResult × ℕ × List (String × OutSession) :=
  match alistGet sessions sessionId with
  | none => ({ success := false, error := some "Invalid TikTok upload session" },
             0, sessions)
  | some session =>
      if session.platform ≠ "tiktok" then
        ({ success := false, error := some "Invalid TikTok upload session" },
         0, sessions)
      else
        match session.chunks[chunkIndex]? with
        | none => ({ success := false, error := some "Invalid chunk index" },
                   0, sessions)
        | some chunk =>
            if respOk respStatus then
              let session2 : OutSession :=
                { session with
                  chunks := session.chunks.set chunkIndex
                    { chunk with uploaded := true },
                  status := .uploading }
              ({ success := true, bytesUploaded := some chunkBytes.length },
               1, alistSet sessions sessionId session2)
            else
              ({ success := false,
                 error := some ("TikTok chunk upload failed: "
                   ++ toString respStatus) }, 1, sessions)

/-- C8: every outbound chunk-upload call makes at most one remote
attempt, and a non-success HTTP status yields a typed failure result
(`success = false` with an error naming the platform and the status)
rather than a retry. -/
theorem claim_c8 :
    (∀ sessions tok sessionId chunkIndex chunkBytes respStatus,
      (uploadXChunk sessions tok sessionId chunkIndex chunkBytes
        respStatus).2.1 ≤ 1) ∧
    (∀ sessions sessionId chunkIndex chunkBytes respStatus,
      (uploadTikTokChunk sessions sessionId chunkIndex chunkBytes
        respStatus).2.1 ≤ 1) ∧
    (∀ sessions tok sessionId chunkIndex chunkBytes respStatus session,
      alistGet sessions sessionId = some session →
      session.platform = "twitter" →
      (tok (xTokenUserArg session) "twitter").isSome = true →
      session.chunks[chunkIndex]?.isSome = true →
      respOk respStatus = false →
      uploadXChunk sessions tok sessionId chunkIndex chunkBytes respStatus
        = ({ success := false,
             error := some ("X chunk upload failed: " ++ toString respStatus) },
           1, sessions)) ∧
    (∀ sessions sessionId chunkIndex chunkBytes respStatus session,
      alistGet sessions sessionId = some session →
      session.platform = "tiktok" →
      session.chunks[chunkIndex]?.isSome = true →
      respOk respStatus = false →
      uploadTikTokChunk sessions sessionId chunkIndex chunkBytes respStatus
        = ({ success := false,
             error := some ("TikTok chunk upload failed: "
               ++ toString respStatus) }, 1, sessions)) := by
  refine ⟨?_, ?_, ?_, ?_⟩
  · intro sessions tok sessionId chunkIndex chunkBytes respStatus
    unfold uploadXChunk
    rcases alistGet sessions sessionId with _ | session
    · simp
    · dsimp only
      split
      · simp
      · rcases tok (xTokenUserArg session) "twitter" with _ | _
        · simp
        · dsimp only
          rcases session.chunks[chunkIndex]? with _ | chunk
          · simp
          · dsimp only
            split <;> simp
  · intro sessions sessionId chunkIndex chunkBytes respStatus
    unfold uploadTikTokChunk
    rcases alistGet sessions sessionId with _ | session
    · simp
    · dsimp only
      split
      · simp
      · rcases session.chunks[chunkIndex]? with _ | chunk
        · simp
        · dsimp only
          split <;> simp
  · intro sessions tok sessionId chunkIndex chunkBytes respStatus session
      hlook hplat htok hchunk hresp
    rcases Option.isSome_iff_exists.mp htok with ⟨tk, htk⟩
    rcases Option.isSome_iff_exists.mp hchunk with ⟨ch, hch⟩
    simp only [uploadXChunk, hlook, hplat, htk, hch, hresp]
    simp
  · intro sessions sessionId chunkIndex chunkBytes respStatus session
      hlook hplat hchunk hresp
    rcases Option.isSome_iff_exists.mp hchunk with ⟨ch, hch⟩
    simp only [uploadTikTokChunk, hlook, hplat, hch, hresp]
    simp

/-- Witness for C8: a 500 from the APPEND call on a live X session yields
the typed failure and exactly one remote call, leaving the table
unchanged. -/
theorem claim_c8_witness :
    uploadXChunk [("s1", initializeXUpload "alice" "v.mp4" 10 0 "r" "m1")]
        (fun _ _ => some "tok") "s1" 0 [1] 500
      = ({ success := false, error := some "X chunk upload failed: 500" },
         1, [("s1", initializeXUpload "alice" "v.mp4" 10 0 "r" "m1")]) := by
  have h := claim_c8.2.2.1 [("s1", initializeXUpload "alice" "v.mp4" 10 0 "r" "m1")]
      (fun _ _ => some "tok") "s1" 0 [1] 500
      (initializeXUpload "alice" "v.mp4" 10 0 "r" "m1")
      (by decide) (by decide) (by decide) (by decide) (by decide)
  rw [h]
  decide

/-- C9: the session id `initializeXUpload` generates starts with the
literal prefix `twitter_`, so `session.id.split('_')[0]` — the value
`uploadXChunk` and `finalizeXUpload` pass as the `userId` argument of
`getValidToken` — is the constant string `"twitter"` for every X session,
never the id of the user who initialized the session. -/
theorem claim_c9 :
    (∀ (now : ℕ) (rand : String), splitFirst (mkXSessionId now rand) = "twitter") ∧
    (∀ (userId fileName : String) (fileSize now : ℕ) (rand mediaId : String),
      xTokenUserArg (initializeXUpload userId fileName fileSize now rand mediaId)
        = "twitter") ∧
    (∀ (userId fileName : String) (fileSize now : ℕ) (rand mediaId : String),
      userId ≠ "twitter" →
      xTokenUserArg (initializeXUpload userId fileName fileSize now rand mediaId)
        ≠ userId) := by
  have hcore : ∀ (now : ℕ) (rand : String),
      splitFirst (mkXSessionId now rand) = "twitter" := by
    intro now rand
    unfold splitFirst mkXSessionId
    rw [String.data_append, String.data_append, String.data_append]
    rw [show "twitter_".data
          = 't' :: 'w' :: 'i' :: 't' :: 't' :: 'e' :: 'r' :: '_' :: [] from rfl]
    simp [List.takeWhile_cons]
  refine ⟨hcore, fun userId fileName fileSize now rand mediaId => hcore now rand, ?_⟩
  intro userId fileName fileSize now rand mediaId hne
  rw [show xTokenUserArg (initializeXUpload userId fileName fileSize now rand mediaId)
        = splitFirst (mkXSessionId now rand) from rfl, hcore now rand]
  exact fun h => hne h.symm

/-- Witness for C9: a session initialized for user `alice` still hands
`twitter` to the token provider. -/
theorem claim_c9_witness :
    xTokenUserArg (initializeXUpload "alice" "v.mp4" 10 0 "r" "m1") = "twitter" ∧
    xTokenUserArg (initializeXUpload "alice" "v.mp4" 10 0 "r" "m1") ≠ "alice" :=
  ⟨claim_c9.2.1 "alice" "v.mp4" 10 0 "r" "m1",
   claim_c9.2.2 "alice" "v.mp4" 10 0 "r" "m1" (by decide)⟩

/-! ### Claim C10: the progress table never loses records

`uploadProgress.delete` is never called anywhere in `uploadService.ts`:
records are created by `initializeUpload` and only ever updated in place.
So `getUploadProgress` answers 404 exactly for ids that no accepted init
ever created. -/

theorem alistSet_preserves_isSome {α β : Type} [DecidableEq α]
    (l : List (α × β)) (k : α) (v : β)
    (hk : (alistGet l k).isSome = true) (k' : α) :
    (alistGet (alistSet l k v) k').isSome = (alistGet l k').isSome := by
  by_cases h : k = k'
  · subst h
    rw [alistGet_set_eq]
    simp [hk]
  · rw [alistGet_set_ne _ _ _ _ h]

theorem finalize_preserves_progress_isSome (s : ServiceState)
    (uploadId k : String) :
    (alistGet (finalizeUpload s uploadId).uploadProgress k).isSome
      = (alistGet s.uploadProgress k).isSome := by
  unfold finalizeUpload
  cases hci : alistGet s.activeUploads uploadId with
  | none =>
      cases hpr : alistGet s.uploadProgress uploadId with
      | none => rfl
      | some pr =>
          dsimp only
          exact alistSet_preserves_isSome _ _ _ (by rw [hpr]; rfl) k
  | some ci =>
      cases hpr : alistGet s.uploadProgress uploadId with
      | none => rfl
      | some pr =>
          cases hd : alistGet s.dirs uploadId with
          | none =>
              dsimp only
              exact alistSet_preserves_isSome _ _ _ (by rw [hpr]; rfl) k
          | some d =>
              dsimp only
              split
              · exact alistSet_preserves_isSome _ _ _ (by rw [hpr]; rfl) k
              · exact alistSet_preserves_isSome _ _ _ (by rw [hpr]; rfl) k

theorem uploadChunk_preserves_progress_isSome (s : ServiceState)
    (uploadId : String) (n : Int) (bts : Bytes) (now : ℕ) (k : String) :
    (alistGet (uploadChunk s uploadId n bts now).1.uploadProgress k).isSome
      = (alistGet s.uploadProgress k).isSome := by
  unfold uploadChunk
  cases hci : alistGet s.activeUploads uploadId with
  | none => rfl
  | some ci =>
      cases hd : alistGet s.dirs uploadId with
      | none => rfl
      | some d =>
          cases hpr : alistGet s.uploadProgress uploadId with
          | none => rfl
          | some pr =>
              dsimp only
              split
              · rw [finalize_preserves_progress_isSome]
                exact alistSet_preserves_isSome _ _ _ (by rw [hpr]; rfl) k
              · exact alistSet_preserves_isSome _ _ _ (by rw [hpr]; rfl) k

theorem cancel_preserves_progress_isSome (s : ServiceState)
    (uploadId k : String) :
    (alistGet (cancelUpload s uploadId).uploadProgress k).isSome
      = (alistGet s.uploadProgress k).isSome := by
  unfold cancelUpload
  cases hpr : alistGet s.uploadProgress uploadId with
  | none => rfl
  | some pr =>
      exact alistSet_preserves_isSome _ _ _ (by rw [hpr]; rfl) k

theorem cleanup_preserves_progress_isSome (now : ℕ) (k : String) :
    ∀ (l : List (String × ChunkInfo)) (s : ServiceState),
    (alistGet (l.foldl
        (fun st kv => if kv.2.lastActivity < now - UPLOAD_TIMEOUT
                      then cancelUpload st kv.1 else st) s).uploadProgress
      k).isSome
      = (alistGet s.uploadProgress k).isSome := by
  intro l
  induction l with
  | nil => intro s; rfl
  | cons kv rest ih =>
      intro s
      rw [List.foldl_cons, ih]
      split
      · exact cancel_preserves_progress_isSome s kv.1 k
      · rfl

theorem resume_preserves_progress (s : ServiceState) (uploadId : String)
    (now : ℕ) :
    (resumeUpload s uploadId now).1.uploadProgress = s.uploadProgress := by
  unfold resumeUpload
  cases alistGet s.activeUploads uploadId <;> rfl

/-- The acceptance conditions of `initializeUpload`, bundled. -/
theorem initializeUpload_cases (s : ServiceState) (uploadId filename : String)
    (totalSize totalChunks now : ℕ) (k : String) :
    (alistGet (initializeUpload s uploadId filename totalSize totalChunks
        now).1.uploadProgress k).isSome
      = ((alistGet s.uploadProgress k).isSome ||
          (decide (uploadId = k) && decide (filename ≠ "") &&
           decide (totalSize ≠ 0) && decide (totalChunks ≠ 0) &&
           validateFileType filename && validateFileSize totalSize)) := by
  unfold initializeUpload
  by_cases h1 : filename = "" ∨ totalSize = 0 ∨ totalChunks = 0
  · rcases h1 with h | h | h <;> simp [h]
  · push_neg at h1
    obtain ⟨hf, hS, hN⟩ := h1
    rw [if_neg (by tauto)]
    by_cases h2 : validateFileType filename
    · by_cases h3 : validateFileSize totalSize
      · rw [if_neg (by simp [h2]), if_neg (by simp [h3])]
        by_cases h4 : uploadId = k
        · subst h4
          simp [alistGet_set_eq, hf, hS, hN, h2, h3]
        · simp [alistGet_set_ne _ _ _ _ h4, h4]
      · rw [if_neg (by simp [h2]), if_pos (by simp [h3])]
        simp [h3]
    · rw [if_pos (by simp [h2])]
      simp [h2]

/-- The progress table has an entry for `uploadId` after running `ops`
from `s` exactly when it had one before or some accepted init for
`uploadId` occurs in `ops`: no operation ever removes a progress
record. -/
theorem progress_membership (ops : List Op) :
    ∀ (s : ServiceState) (uploadId : String),
    (alistGet (runOps s ops).uploadProgress uploadId).isSome
      = ((alistGet s.uploadProgress uploadId).isSome ||
          ops.any (fun op => initAccepted op uploadId)) := by
  induction ops with
  | nil =>
      intro s uploadId
      simp [runOps]
  | cons op rest ih =>
      intro s uploadId
      have hrw : runOps s (op :: rest) = runOps (runOp s op) rest := rfl
      rw [hrw, ih]
      have hstep : (alistGet (runOp s op).uploadProgress uploadId).isSome
          = ((alistGet s.uploadProgress uploadId).isSome ||
              initAccepted op uploadId) := by
        cases op with
        | init uid filename totalSize totalChunks now =>
            rw [show runOp s (Op.init uid filename totalSize totalChunks now)
                  = (initializeUpload s uid filename totalSize totalChunks now).1
                from rfl]
            rw [initializeUpload_cases]
            rfl
        | chunk uid n bts now =>
            rw [show runOp s (Op.chunk uid n bts now)
                  = (uploadChunk s uid n bts now).1 from rfl]
            rw [uploadChunk_preserves_progress_isSome]
            simp [initAccepted]
        | cancel uid =>
            rw [show runOp s (Op.cancel uid) = cancelUpload s uid from rfl]
            rw [cancel_preserves_progress_isSome]
            simp [initAccepted]
        | resume uid now =>
            rw [show runOp s (Op.resume uid now) = (resumeUpload s uid now).1
                from rfl]
            rw [resume_preserves_progress]
            simp [initAccepted]
        | reap now =>
            rw [show runOp s (Op.reap now) = cleanupStaleUploads s now from rfl]
            rw [show cleanupStaleUploads s now
                  = s.activeUploads.foldl
                      (fun st kv => if kv.2.lastActivity < now - UPLOAD_TIMEOUT
                                    then cancelUpload st kv.1 else st) s
                from rfl]
            rw [cleanup_preserves_progress_isSome]
            simp [initAccepted]
      rw [hstep, List.any_cons]
      cases h1 : (alistGet s.uploadProgress uploadId).isSome <;>
        cases h2 : initAccepted op uploadId <;> simp

/-- C10: a progress record, once created by an accepted init, is never
removed — `getUploadProgress` answers 404 exactly for session ids with no
accepted init in the history, keeps answering 200 after any further
operations, and after a cancel it answers 200 with the record marked
`cancelled`. -/
theorem claim_c10 (ops : List Op) (uploadId : String) :
    (getUploadProgress (runOps emptyState ops) uploadId
        = ProgressResponse.notFound
      ↔ ops.any (fun op => initAccepted op uploadId) = false) ∧
    (∀ more, ops.any (fun op => initAccepted op uploadId) = true →
      getUploadProgress (runOps emptyState (ops ++ more)) uploadId
        ≠ ProgressResponse.notFound) ∧
    (∀ pr, alistGet (runOps emptyState ops).uploadProgress uploadId = some pr →
      getUploadProgress (runOps emptyState (ops ++ [Op.cancel uploadId]))
          uploadId
        = ProgressResponse.ok { pr with status := PStatus.cancelled }) := by
  have hmem : (alistGet (runOps emptyState ops).uploadProgress uploadId).isSome
      = ops.any (fun op => initAccepted op uploadId) := by
    rw [progress_membership ops emptyState uploadId]
    simp [emptyState, alistGet]
  refine ⟨?_, ?_, ?_⟩
  · unfold getUploadProgress
    cases hget : alistGet (runOps emptyState ops).uploadProgress uploadId with
    | none =>
        rw [hget] at hmem
        simp at hmem
        simpa using hmem
    | some pr =>
        rw [hget] at hmem
        simp at hmem
        simp [hmem]
  · intro more hany
    have hrw : runOps emptyState (ops ++ more)
        = runOps (runOps emptyState ops) more := by
      simp [runOps, List.foldl_append]
    rw [hrw]
    have h2 := progress_membership more (runOps emptyState ops) uploadId
    rw [hmem, hany] at h2
    simp at h2
    unfold getUploadProgress
    cases hget : alistGet (runOps (runOps emptyState ops) more).uploadProgress
        uploadId with
    | none => rw [hget] at h2; simp at h2
    | some pr => simp
  · intro pr hpr
    have hrw : runOps emptyState (ops ++ [Op.cancel uploadId])
        = cancelUpload (runOps emptyState ops) uploadId := by
      simp [runOps, List.foldl_append]
      rfl
    rw [hrw]
    unfold getUploadProgress cancelUpload
    rw [hpr]
    dsimp only
    rw [alistGet_set_eq]

/-- Witness for C10: after init and cancel, the progress record is still
served with status `cancelled`. -/
theorem claim_c10_witness :
    getUploadProgress (runOps emptyState
        ([Op.init "u1" "a.mp4" 10 2 0] ++ [Op.cancel "u1"])) "u1"
      = ProgressResponse.ok
          { filename := "a.mp4", bytesUploaded := 0, totalBytes := 10,
            progress := 0, eta := .num 0, status := .cancelled,
            error := none, startTime := 0 } := by
  have h := (claim_c10 [Op.init "u1" "a.mp4" 10 2 0] "u1").2.2
      { filename := "a.mp4", bytesUploaded := 0, totalBytes := 10,
        progress := 0, eta := .num 0, status := .uploading,
        error := none, startTime := 0 }
      (by decide)
  exact h
